import Mathlib

/-!
Verification development for the gnss-intrinsics tracking-stage sources
(`src/avx2_intrinsics.h` and `prof/trackC_standalone_avx512_16i_add_16i_mul_single_mulacc.c`).

Modelling conventions:
* C `unsigned int` phase accumulators are natural numbers reduced `% 2^32`;
  SIMD 32-bit lane additions are additions `% 2^32` per lane.
* 16-bit SIMD lane semantics are explicit: `_mm256_mullo_epi16` is `wrap16`
  of the integer product, `_mm256_adds_epi16` is `sat16` of the integer sum.
* C `double`/`float` arithmetic is modelled as exact rational arithmetic (`ℚ`);
  the libm calls `sqrt`, `log10`, `atan` are abstracted as function parameters.
  For the claims about non-finite propagation, an extended-value type `RExt`
  (finite rational, plus infinities and NaN) models the IEEE extended values,
  with C99 Annex F semantics for division by zero and `atan` at infinities
  (signed zero is not distinguished; the claims at issue do not depend on it).
* C `int` (32-bit) accumulators whose overflow is undefined behaviour are
  modelled as exact integers; all claims here only concern executions in
  which those accumulators stay far from the 32-bit boundary.
* The conversion of the `double` inputs `rem_carr_phase`, `carr_freq`,
  `samp_freq` to the unsigned ints `carrPhaseBase`/`carrStep` is textually
  identical in the two NCO variants, so the variants are compared over
  arbitrary already-converted `base`/`step` naturals.
-/

/-! ## Oscillator (NCO), from avx2_intrinsics.h -/

/-- `2^32`, the wraparound modulus of the C `unsigned int` phase accumulators. -/
def U32 : ℕ := 4294967296

/-- Index extraction `(phase >> 24) & 0xFF` used by the per-sample NCO loops
(`avx2_nom_nco_si32` body, and the remainder loop of `avx2_nco_si32`). -/
def ncoIdx (phase : ℕ) : ℕ := (phase / 16777216) % 256

/-- The per-sample NCO loop of `avx2_nom_nco_si32` (avx2_intrinsics.h:111-122):
each sample looks up `lut[(phase >> 24) & 0xFF]` and advances the phase by
`step` modulo `2^32`.  `fuel` is the number of samples still to produce. -/
def nomNcoLoop (lut : ℕ → ℤ) (step : ℕ) : ℕ → ℕ → List ℤ
  | 0, _ => []
  | n + 1, phase => lut (ncoIdx phase) :: nomNcoLoop lut step n ((phase + step) % U32)

/-- `avx2_nom_nco_si32` (avx2_intrinsics.h:96-123), the Direct Lookup Table
per-sample strategy, over the already-converted `base`/`step` accumulators. -/
def avx2_nom_nco_si32 (lut : ℕ → ℤ) (blk_size : ℕ) (base step : ℕ) : List ℤ :=
  nomNcoLoop lut step blk_size (base % U32)

/-- The batched loop of `avx2_nco_si32` (avx2_intrinsics.h:53-70): each
iteration gathers `lut[lane >> 24]` for the eight 32-bit lanes (the `& 0xFF`
is commented out in the source; the logical shift already leaves 8 bits),
then adds `8*step` to every lane modulo `2^32`.  Returns the emitted samples
and the final lane phases. -/
def ncoBatchLoop (lut : ℕ → ℤ) (stepOff : ℕ) : ℕ → (ℕ → ℕ) → List ℤ × (ℕ → ℕ)
  | 0, lanes => ([], lanes)
  | n + 1, lanes =>
      let out := (List.range 8).map fun k => lut (lanes k / 16777216)
      let rec' := ncoBatchLoop lut stepOff n (fun k => (lanes k + stepOff) % U32)
      (out ++ rec'.1, rec'.2)

/-- `avx2_nco_si32` (avx2_intrinsics.h:25-84), the batched (PLUT) strategy:
lane `k` starts at `base + k*step` (the `carr_step_base` add before the loop),
`blk_size / 8` gathers of 8 samples are performed, then the remainder loop
restarts the scalar accumulator from `_mm256_extract_epi32(carr_phase_base, 7)`,
i.e. from lane 7 of the stepped lane vector. -/
def avx2_nco_si32 (lut : ℕ → ℤ) (blk_size : ℕ) (base step : ℕ) : List ℤ :=
  let eight_points := blk_size / 8
  let lanes0 : ℕ → ℕ := fun k => (base % U32 + k * step % U32) % U32
  let b := ncoBatchLoop lut (8 * step % U32) eight_points lanes0
  b.1 ++ nomNcoLoop lut step (blk_size - 8 * eight_points) (b.2 7)

/-- Identity lookup table, used to observe the raw gather indices. -/
def idLut : ℕ → ℤ := fun n => (n : ℤ)

/-! ## Code-phase update of the tracking loop (trackC main, line 253) -/

/-- The end-of-epoch code-phase update written in the source:
`remCodePhase = remCodePhase + blksize*codePhaseStep - 1023;`
(trackC_standalone...c:253).  Note the literal constant `1023`. -/
def remCodePhaseUpdate (remCodePhase codePhaseStep : ℚ) (blksize : ℕ) : ℚ :=
  remCodePhase + (blksize : ℚ) * codePhaseStep - 1023

/-- The update as the specification states it: subtract the configured
`codeLength` (spec section 4.6 step 6). -/
def remCodePhaseUpdateSpec (remCodePhase codePhaseStep codeLength : ℚ) (blksize : ℕ) : ℚ :=
  remCodePhase + (blksize : ℚ) * codePhaseStep - codeLength

/-! ## Trigonometric approximator (trackC, lines 33-36) -/

/-- `gps_sin` macro: `((x > 31416) || (x < 0 && x > -31416)) ? -1 : +1`. -/
def gps_sin (x : ℤ) : ℤ := if 31416 < x ∨ (x < 0 ∧ -31416 < x) then -1 else 1

/-- `gps_cos` macro: `((x > 15708 && x < 47124) || (x < -15708 && x > -47124)) ? -1 : 1`. -/
def gps_cos (x : ℤ) : ℤ :=
  if (15708 < x ∧ x < 47124) ∨ (x < -15708 ∧ -47124 < x) then -1 else 1

/-- Specification-side sine: `-1` on the lower half of the cycle
(wrapped angle strictly above the half-cycle mark `31416`), `+1` otherwise;
the wrapped angle is the mathematical residue modulo the full cycle `62832`. -/
def gpsSinSpec (x : ℤ) : ℤ := if 31416 < x % 62832 then -1 else 1

/-- Specification-side cosine: `-1` inside the band `(15708, 47124)` of the
wrapped cycle (the half-cycle-centred negative lobe of the cosine), `+1`
elsewhere. -/
def gpsCosSpec (x : ℤ) : ℤ :=
  if 15708 < x % 62832 ∧ x % 62832 < 47124 then -1 else 1

/-! ## 16-bit SIMD lane semantics -/

/-- Two's-complement wraparound to a signed 16-bit value
(the semantics of `_mm256_mullo_epi16` products and of `_mm256_add_epi16`). -/
def wrap16 (x : ℤ) : ℤ := (x + 32768) % 65536 - 32768

/-- Saturation to the signed 16-bit range (the semantics of `_mm256_adds_epi16`). -/
def sat16 (x : ℤ) : ℤ := max (-32768) (min 32767 x)

/-- The horizontal sum `returnValue = tempBuffer[0]; returnValue += tempBuffer[1]; ...`
over the sixteen 16-bit lanes, performed in exact `int` arithmetic.  Lane
vectors are modelled as `ℕ`-indexed functions of which only indices `0..15`
are observable (the register has 16 lanes; all lane operations are uniform). -/
def hsum16 (t : ℕ → ℤ) : ℤ :=
  t 0 + t 1 + t 2 + t 3 + t 4 + t 5 + t 6 + t 7 +
  t 8 + t 9 + t 10 + t 11 + t 12 + t 13 + t 14 + t 15

/-! ## Accumulate kernels, from avx2_intrinsics.h -/

/-- Batched loop of `avx_accumulate_short` (avx2_intrinsics.h:768-772):
each of `m` iterations loads 16 lanes starting at `off` and performs a
saturating lane-wise add into the accumulator. -/
def avx_accumulate_short_batch (a : ℕ → ℤ) : ℕ → ℕ → (ℕ → ℤ) → (ℕ → ℤ)
  | 0, _, acc => acc
  | m + 1, off, acc =>
      avx_accumulate_short_batch a m (off + 16) (fun k => sat16 (acc k + a (off + k)))

/-- Remainder loop of `avx_accumulate_short` (avx2_intrinsics.h:793-796):
exact scalar adds of the leftover elements. -/
def avx_accumulate_short_rem (a : ℕ → ℤ) : ℕ → ℕ → ℤ → ℤ
  | 0, _, r => r
  | m + 1, off, r => avx_accumulate_short_rem a m (off + 1) (r + a off)

/-- `avx_accumulate_short` (avx2_intrinsics.h:756-798): saturating batched
accumulation, exact horizontal sum, exact remainder. -/
def avx_accumulate_short (a : ℕ → ℤ) (num_points : ℕ) : ℤ :=
  let sixteenthPoints := num_points / 16
  avx_accumulate_short_rem a (num_points - 16 * sixteenthPoints) (16 * sixteenthPoints)
    (hsum16 (avx_accumulate_short_batch a sixteenthPoints 0 (fun _ => 0)))

/-- Batched loop of `avx_accumulate_short_unsat` (avx2_intrinsics.h:819-823);
the source body uses `_mm256_adds_epi16`, i.e. the same saturating add as the
saturating variant, despite the function's rollover documentation. -/
def avx_accumulate_short_unsat_batch (a : ℕ → ℤ) : ℕ → ℕ → (ℕ → ℤ) → (ℕ → ℤ)
  | 0, _, acc => acc
  | m + 1, off, acc =>
      avx_accumulate_short_unsat_batch a m (off + 16) (fun k => sat16 (acc k + a (off + k)))

/-- Remainder loop of `avx_accumulate_short_unsat` (avx2_intrinsics.h:844-847). -/
def avx_accumulate_short_unsat_rem (a : ℕ → ℤ) : ℕ → ℕ → ℤ → ℤ
  | 0, _, r => r
  | m + 1, off, r => avx_accumulate_short_unsat_rem a m (off + 1) (r + a off)

/-- `avx_accumulate_short_unsat` (avx2_intrinsics.h:807-849); its body is
line-for-line the body of `avx_accumulate_short`. -/
def avx_accumulate_short_unsat (a : ℕ → ℤ) (num_points : ℕ) : ℤ :=
  let sixteenthPoints := num_points / 16
  avx_accumulate_short_unsat_rem a (num_points - 16 * sixteenthPoints) (16 * sixteenthPoints)
    (hsum16 (avx_accumulate_short_unsat_batch a sixteenthPoints 0 (fun _ => 0)))

/-- Batched loop of the rollover accumulator documented for
`avx_accumulate_short_unsat` (wraparound instead of saturation in the lanes). -/
def accumulate_short_rollover_batch (a : ℕ → ℤ) : ℕ → ℕ → (ℕ → ℤ) → (ℕ → ℤ)
  | 0, _, acc => acc
  | m + 1, off, acc =>
      accumulate_short_rollover_batch a m (off + 16) (fun k => wrap16 (acc k + a (off + k)))

/-- Reference accumulator with the wraparound (overflow-rollover) semantics
that the doc comment of `avx_accumulate_short_unsat` describes: once the
maximum of the 16-bit type is exceeded, a lane rolls over from the minimum. -/
def accumulate_short_rollover (a : ℕ → ℤ) (num_points : ℕ) : ℤ :=
  let sixteenthPoints := num_points / 16
  avx_accumulate_short_rem a (num_points - 16 * sixteenthPoints) (16 * sixteenthPoints)
    (hsum16 (accumulate_short_rollover_batch a sixteenthPoints 0 (fun _ => 0)))

/-- Concrete 16-bit input with `a 0 = a 16 = 30000` and zeros elsewhere:
lane 0 of the accumulator receives `30000 + 30000`, which exceeds `32767`. -/
def c7input : ℕ → ℤ := fun i => if i = 0 ∨ i = 16 then 30000 else 0

/-! ## Multiply-accumulate kernels, from avx2_intrinsics.h -/

/-- Batched loop of `avx2_mul_and_acc_fl32` (avx2_intrinsics.h:513-530):
eight float lanes, each iteration adds the lane-wise product into the lane
accumulator.  Float arithmetic is modelled as exact rational arithmetic. -/
def avx2_mul_and_acc_fl32_batch (a b : ℕ → ℚ) : ℕ → ℕ → (ℕ → ℚ) → (ℕ → ℚ)
  | 0, _, acc => acc
  | m + 1, off, acc =>
      avx2_mul_and_acc_fl32_batch a b m (off + 8)
        (fun k => acc k + a (off + k) * b (off + k))

/-- The horizontal sum `returnValue = tempBuffer[0]; returnValue += ...`
over the eight float lanes. -/
def hsum8 (t : ℕ → ℚ) : ℚ := t 0 + t 1 + t 2 + t 3 + t 4 + t 5 + t 6 + t 7

/-- Remainder loop of `avx2_mul_and_acc_fl32` (avx2_intrinsics.h:544-547). -/
def avx2_mul_and_acc_fl32_rem (a b : ℕ → ℚ) : ℕ → ℕ → ℚ → ℚ
  | 0, _, r => r
  | m + 1, off, r => avx2_mul_and_acc_fl32_rem a b m (off + 1) (r + a off * b off)

/-- `avx2_mul_and_acc_fl32` (avx2_intrinsics.h:498-549). -/
def avx2_mul_and_acc_fl32 (a b : ℕ → ℚ) (num_points : ℕ) : ℚ :=
  let eigthPoints := num_points / 8
  avx2_mul_and_acc_fl32_rem a b (num_points - 8 * eigthPoints) (8 * eigthPoints)
    (hsum8 (avx2_mul_and_acc_fl32_batch a b eigthPoints 0 (fun _ => 0)))

/-- Batched loop of `avx2_mul_and_acc_short` (avx2_intrinsics.h:873-890):
sixteen 16-bit lanes; products via `_mm256_mullo_epi16` (wrap to 16 bits),
accumulation via `_mm256_adds_epi16` (saturating 16-bit add). -/
def avx2_mul_and_acc_short_batch (a b : ℕ → ℤ) : ℕ → ℕ → (ℕ → ℤ) → (ℕ → ℤ)
  | 0, _, acc => acc
  | m + 1, off, acc =>
      avx2_mul_and_acc_short_batch a b m (off + 16)
        (fun k => sat16 (acc k + wrap16 (a (off + k) * b (off + k))))

/-- Remainder loop of `avx2_mul_and_acc_short` (avx2_intrinsics.h:912-915):
exact `int` products and adds of the leftover elements. -/
def avx2_mul_and_acc_short_rem (a b : ℕ → ℤ) : ℕ → ℕ → ℤ → ℤ
  | 0, _, r => r
  | m + 1, off, r => avx2_mul_and_acc_short_rem a b m (off + 1) (r + a off * b off)

/-- `avx2_mul_and_acc_short` (avx2_intrinsics.h:858-917). -/
def avx2_mul_and_acc_short (a b : ℕ → ℤ) (num_points : ℕ) : ℤ :=
  let sixteenthPoints := num_points / 16
  avx2_mul_and_acc_short_rem a b (num_points - 16 * sixteenthPoints) (16 * sixteenthPoints)
    (hsum16 (avx2_mul_and_acc_short_batch a b sixteenthPoints 0 (fun _ => 0)))

/-- The pure-scalar reference dot product of the specification:
`sum(A[i]*B[i] for i in 0..N)` in exact integer arithmetic. -/
def dotScalarRef (a b : ℕ → ℤ) (n : ℕ) : ℤ := ∑ i in Finset.range n, a i * b i

/-- A scalar reference that applies the 16-bit semantics throughout: wrapped
16-bit products accumulated by one saturating 16-bit scalar accumulator. -/
def dotScalarSat16 (a b : ℕ → ℤ) : ℕ → ℤ
  | 0 => 0
  | n + 1 => sat16 (dotScalarSat16 a b n + wrap16 (a n * b n))

/-- A scalar reference with wrapped 16-bit products and exact accumulation. -/
def dotScalarWrapProd (a b : ℕ → ℤ) (n : ℕ) : ℤ :=
  ∑ i in Finset.range n, wrap16 (a i * b i)

/-- Concrete input whose single nonzero product `200*200 = 40000` exceeds
the signed 16-bit range. -/
def c2big : ℕ → ℤ := fun i => if i = 0 then 200 else 0

/-- Concrete constant input with per-element product `100*100 = 10000`. -/
def c2hund : ℕ → ℤ := fun _ => 100

/-! ## Code replica rounding rule (avx2_nom_code_si32, trackC lines 193-205) -/

/-- C truncation of a floating value to an integer type: toward zero. -/
def cTrunc (q : ℚ) : ℤ := if 0 ≤ q then ⌊q⌋ else ⌈q⌉

/-- The rounding expression shared by `avx2_nom_code_si32`
(avx2_intrinsics.h:150-156) and the tracking loop (trackC lines 195-201):
`(int)(x) < x ? (int)(x + 1) : (int)(x)` — if truncation lost a fractional
part, truncate `x + 1` instead. -/
def codeIdx (x : ℚ) : ℤ := if (cTrunc x : ℚ) < x then cTrunc (x + 1) else cTrunc x

/-- Prompt index: the rounding rule applied to
`baseCode = inda * codePhaseStep + rem_code_phase`. -/
def pCodeIdx (i : ℕ) (codePhaseStep remCodePhase : ℚ) : ℤ :=
  codeIdx ((i : ℚ) * codePhaseStep + remCodePhase)

/-- Early index: the rounding rule applied to `baseCode - earlyLateSpc`. -/
def eCodeIdx (i : ℕ) (codePhaseStep remCodePhase earlyLateSpc : ℚ) : ℤ :=
  codeIdx ((i : ℚ) * codePhaseStep + remCodePhase - earlyLateSpc)

/-- Late index: the rounding rule applied to `baseCode + earlyLateSpc`. -/
def lCodeIdx (i : ℕ) (codePhaseStep remCodePhase earlyLateSpc : ℚ) : ℤ :=
  codeIdx ((i : ℚ) * codePhaseStep + remCodePhase + earlyLateSpc)

/-! ## Sample-stream read skeleton of the tracking loop (trackC main) -/

/-- Number of items delivered by `fread`: the request, capped by what remains
in the stream (C stdio semantics for a short read at end of data). -/
def freadCount (remaining requested : ℕ) : ℕ := min requested remaining

/-- The per-epoch read-and-emit skeleton of the main loop
(trackC_standalone...c:133-299): each epoch calls `fread` for `blkReq` items,
assigns the count to `i` without any check (the source comments that "An
error check should be added here"), and unconditionally stores one result
record at the end of the epoch.  The emitted list records, per epoch, how
many items that epoch's `fread` actually delivered; its length is the number
of ResultRecords stored. -/
def trackEpochs (blkReq : ℕ) : ℕ → ℕ → List ℕ
  | 0, _ => []
  | n + 1, remaining =>
      freadCount remaining blkReq ::
        trackEpochs blkReq n (remaining - freadCount remaining blkReq)

/-! ## Carrier-to-noise (VSM) window of the tracking loop (trackC lines 228-251) -/

/-- The running power-accumulation state: window counter `vsmCount`, running
power sum `pwrSum` and running power sum-of-squares `pwrSqrSum`. -/
structure VsmState where
  vsmCount : ℕ
  pwrSum : ℚ
  pwrSqrSum : ℚ
deriving DecidableEq

/-- One epoch of the VSM block (trackC lines 229-251): accumulate the prompt
power `I_P*I_P + Q_P*Q_P` into the running sums and bump the counter; when
the counter reaches `vsmInterval`, compute the C/No exactly as the source
does (the two `(x > 0) ? x : -x` guards are absolute values), record
`(loopcount + 1, CNo)`, and reset counter and sums to zero.  The libm calls
are the abstract parameters `sqrtF` and `log10F`. -/
def vsmEpoch (sqrtF log10F : ℚ → ℚ) (vsmInterval : ℕ) (accInt : ℚ)
    (loopcount : ℕ) (I_P Q_P : ℚ) (st : VsmState) : VsmState × Option (ℚ × ℚ) :=
  let pwr := I_P * I_P + Q_P * Q_P
  let pwrSum := st.pwrSum + pwr
  let pwrSqrSum := st.pwrSqrSum + pwr * pwr
  let vsmCount := st.vsmCount + 1
  if vsmCount = vsmInterval then
    let pwrMean := pwrSum / (vsmInterval : ℚ)
    let pwrVar := pwrSqrSum / (vsmInterval : ℚ) - pwrMean * pwrMean
    let pwrAvgSqr := |pwrMean * pwrMean - pwrVar|
    let pwrAvg := sqrtF pwrAvgSqr
    let noiseVar := 0.5 * (pwrMean - pwrAvg)
    let cno := 10 * log10F |pwrAvg / accInt / (2 * noiseVar)|
    (⟨0, 0, 0⟩, some ((loopcount : ℚ) + 1, cno))
  else
    (⟨vsmCount, pwrSum, pwrSqrSum⟩, none)

/-- The C/No formula as the specification states it (spec section 4.6 step 5):
`mean = sum/V; var = sumSq/V - mean²; avgSqr = |mean² - var|;
avg = sqrt(avgSqr); noiseVar = 0.5*(mean - avg);
CNo = 10*log10(|avg/accInt / (2*noiseVar)|)`. -/
def cnoSpecFormula (sqrtF log10F : ℚ → ℚ) (V : ℕ) (accInt sum sumSq : ℚ) : ℚ :=
  let mean := sum / (V : ℚ)
  let varPwr := sumSq / (V : ℚ) - mean * mean
  let avgSqr := |mean * mean - varPwr|
  let avg := sqrtF avgSqr
  let noiseVar := 0.5 * (mean - avg)
  10 * log10F |avg / accInt / (2 * noiseVar)|

/-! ## Extended values for the discriminators (trackC lines 257-281) -/

/-- Extended value: a finite rational, an infinity, or NaN.  Models the IEEE
special values the discriminator claims are about.  A single zero stands for
both signed zeros (the executions at issue reach `0.0` as an exact integer
sum converted to double, i.e. `+0`). -/
inductive RExt where
  | fin : ℚ → RExt
  | pinf : RExt
  | ninf : RExt
  | nan : RExt
deriving DecidableEq

namespace RExt

/-- IEEE addition on extended values. -/
def add : RExt → RExt → RExt
  | nan, _ => nan
  | _, nan => nan
  | pinf, ninf => nan
  | ninf, pinf => nan
  | pinf, _ => pinf
  | _, pinf => pinf
  | ninf, _ => ninf
  | _, ninf => ninf
  | fin x, fin y => fin (x + y)

/-- IEEE negation on extended values. -/
def neg : RExt → RExt
  | fin x => fin (-x)
  | pinf => ninf
  | ninf => pinf
  | nan => nan

/-- IEEE subtraction: `x - y = x + (-y)` (exact on these values). -/
def sub (x y : RExt) : RExt := add x (neg y)

/-- IEEE multiplication on extended values (`0 * ∞ = NaN`). -/
def mul : RExt → RExt → RExt
  | nan, _ => nan
  | _, nan => nan
  | fin x, fin y => fin (x * y)
  | fin x, pinf => if 0 < x then pinf else if x < 0 then ninf else nan
  | fin x, ninf => if 0 < x then ninf else if x < 0 then pinf else nan
  | pinf, fin y => if 0 < y then pinf else if y < 0 then ninf else nan
  | ninf, fin y => if 0 < y then ninf else if y < 0 then pinf else nan
  | pinf, pinf => pinf
  | pinf, ninf => ninf
  | ninf, pinf => ninf
  | ninf, ninf => pinf

/-- IEEE division on extended values: a nonzero finite over (plus) zero is a
signed infinity, `0/0` and `∞/∞` are NaN. -/
def div : RExt → RExt → RExt
  | nan, _ => nan
  | _, nan => nan
  | fin x, fin y =>
      if y ≠ 0 then fin (x / y)
      else if 0 < x then pinf else if x < 0 then ninf else nan
  | fin _, pinf => fin 0
  | fin _, ninf => fin 0
  | pinf, fin y => if 0 ≤ y then pinf else ninf
  | ninf, fin y => if 0 ≤ y then ninf else pinf
  | pinf, pinf => nan
  | pinf, ninf => nan
  | ninf, pinf => nan
  | ninf, ninf => nan

/-- IEEE square root with the finite part abstracted as `sqrtF`
(negative finite arguments give NaN, `sqrt(+∞) = +∞`). -/
def sqrtE (sqrtF : ℚ → ℚ) : RExt → RExt
  | fin x => if x < 0 then nan else fin (sqrtF x)
  | pinf => pinf
  | ninf => nan
  | nan => nan

/-- IEEE arctangent with the finite part abstracted as `atanF`; per C99
Annex F, `atan(±∞) = ±π/2`, a finite value, abstracted as `atanInf`. -/
def atanE (atanF : ℚ → ℚ) (atanInf : ℚ) : RExt → RExt
  | fin x => fin (atanF x)
  | pinf => fin atanInf
  | ninf => fin (-atanInf)
  | nan => nan

/-- Whether an extended value is a finite number. -/
def isFinite : RExt → Bool
  | fin _ => true
  | _ => false

end RExt

instance : Add RExt := ⟨RExt.add⟩

instance : Neg RExt := ⟨RExt.neg⟩

instance : Sub RExt := ⟨RExt.sub⟩

instance : Mul RExt := ⟨RExt.mul⟩

instance : Div RExt := ⟨RExt.div⟩

/-- The literal `const double pi = 3.1415926535` defined in trackC. -/
def piC : ℚ := 3.1415926535

/-- Carrier discriminator (trackC line 259):
`carrError = atan(Q_P / I_P) / (2.0 * pi)`, over extended values. -/
def carrErrorCalc (atanF : ℚ → ℚ) (atanInf : ℚ) (I_P Q_P : RExt) : RExt :=
  RExt.div (RExt.atanE atanF atanInf (RExt.div Q_P I_P)) (RExt.fin (2 * piC))

/-- Code discriminator (trackC lines 271-272): the normalised early-minus-
late envelope `(sqrt(I_E²+Q_E²) - sqrt(I_L²+Q_L²)) /
(sqrt(I_E²+Q_E²) + sqrt(I_L²+Q_L²))`, over extended values. -/
def codeErrorCalc (sqrtF : ℚ → ℚ) (I_E Q_E I_L Q_L : RExt) : RExt :=
  let e := RExt.sqrtE sqrtF (I_E * I_E + Q_E * Q_E)
  let l := RExt.sqrtE sqrtF (I_L * I_L + Q_L * Q_L)
  (e - l) / (e + l)

/-- Carrier loop filter (trackC lines 262-263): `carrNco = oldCarrNco +
(tau2carr/tau1carr)*(carrError - oldCarrError) + carrError*(PDIcarr/tau1carr)`,
over extended values; its result is stored back into the loop state. -/
def carrNcoCalc (oldCarrNco tau1carr tau2carr PDIcarr carrError oldCarrError : RExt) : RExt :=
  oldCarrNco + (tau2carr / tau1carr) * (carrError - oldCarrError) +
    carrError * (PDIcarr / tau1carr)

/-! ## Claim C1: batched vs per-sample NCO -/

/-- C1 (code_bug evaluation): at `blk_size = 1`, `base = 0`, `step = 2^24`
(reachable from `rem_carr_phase = 0`, `carr_freq = 1`, `samp_freq = 256`),
the batched strategy emits `lut[7]` where the per-sample strategy emits
`lut[0]`: the remainder loop of `avx2_nco_si32` resumes from SIMD lane 7,
whose phase is `base + 7*step`, not from the phase of the next sample. -/
theorem avx2_nco_batched_vs_nom_mismatch :
    avx2_nco_si32 idLut 1 0 16777216 = [7] ∧
    avx2_nom_nco_si32 idLut 1 0 16777216 = [0] ∧
    avx2_nco_si32 idLut 1 0 16777216 ≠ avx2_nom_nco_si32 idLut 1 0 16777216 := by
  refine ⟨by decide, by decide, by decide⟩

/-! ## Claim C3: code-phase advance uses the literal 1023 -/

/-- C3 counterexample: with `codeLength = 512`, `remCodePhase = 0`,
`codePhaseStep = 1`, `blksize = 512`, the code yields `-511` while the
claimed update `remCodePhase + blksize*codePhaseStep - codeLength` yields `0`. -/
theorem remCodePhaseUpdate_not_codeLength :
    remCodePhaseUpdate 0 1 512 = -511 ∧
    remCodePhaseUpdateSpec 0 1 512 512 = 0 ∧
    remCodePhaseUpdate 0 1 512 ≠ remCodePhaseUpdateSpec 0 1 512 512 := by
  refine ⟨by norm_num [remCodePhaseUpdate], by norm_num [remCodePhaseUpdateSpec],
    by norm_num [remCodePhaseUpdate, remCodePhaseUpdateSpec]⟩

/-- C3 amended: the tracking loop advances the remaining code phase by
`blksize*codePhaseStep - 1023`, i.e. it agrees with the claimed update
exactly when the configured `codeLength` equals the hard-coded `1023`. -/
theorem remCodePhaseUpdate_eq_spec_at_1023 (remCodePhase codePhaseStep : ℚ) (blksize : ℕ) :
    remCodePhaseUpdate remCodePhase codePhaseStep blksize =
      remCodePhaseUpdateSpec remCodePhase codePhaseStep 1023 blksize := rfl

/-! ## Claim C9: sign-only trigonometric approximations -/

/-- C9: on the one-cycle range `(-62832, 62832)` produced by the
`% 62832` at the call site (trackC line 183), `gps_sin` is `-1` exactly on
the lower half of the wrapped cycle and `+1` otherwise, and `gps_cos` is
`-1` exactly inside the quarter-to-three-quarter band of the wrapped cycle
and `+1` elsewhere, negative angles wrapping around. -/
theorem gps_sin_cos_spec (x : ℤ) (hlo : -62832 < x) (hhi : x < 62832) :
    gps_sin x = gpsSinSpec x ∧ gps_cos x = gpsCosSpec x := by
  constructor
  · simp only [gps_sin, gpsSinSpec]
    split_ifs <;> omega
  · simp only [gps_cos, gpsCosSpec]
    split_ifs <;> omega

/-- C9 witness at the concrete angle `x = 40000` (lower half of the cycle). -/
theorem gps_sin_cos_spec_witness :
    (-62832 < (40000 : ℤ)) ∧ ((40000 : ℤ) < 62832) ∧
      (gps_sin 40000 = gpsSinSpec 40000 ∧ gps_cos 40000 = gpsCosSpec 40000) :=
  ⟨by decide, by decide, gps_sin_cos_spec 40000 (by decide) (by decide)⟩

/-! ## Claim C7: the "unsat" accumulator does not roll over -/

/-- C7 (code_bug evaluation): on the input with `a 0 = a 16 = 30000`,
`num_points = 32`, the code's `avx_accumulate_short_unsat` saturates lane 0
at `32767` (it uses `_mm256_adds_epi16`), while the overflow-rollover
semantics documented for it would wrap `60000` to `-5536`. -/
theorem avx_accumulate_short_unsat_saturates :
    avx_accumulate_short_unsat c7input 32 = 32767 ∧
    accumulate_short_rollover c7input 32 = -5536 ∧
    avx_accumulate_short_unsat c7input 32 ≠ accumulate_short_rollover c7input 32 := by
  refine ⟨by decide, by decide, by decide⟩

/-! ## Claim C10: the two accumulate variants are extensionally identical -/

/-- Helper: the two batched loops have identical bodies, hence agree. -/
lemma accumulate_batch_eq_unsat_batch (a : ℕ → ℤ) :
    ∀ (m off : ℕ) (acc : ℕ → ℤ),
      avx_accumulate_short_batch a m off acc = avx_accumulate_short_unsat_batch a m off acc := by
  intro m
  induction m with
  | zero => intro off acc; rfl
  | succ m ih =>
      intro off acc
      simp only [avx_accumulate_short_batch, avx_accumulate_short_unsat_batch, ih]

/-- Helper: the two remainder loops have identical bodies, hence agree. -/
lemma accumulate_rem_eq_unsat_rem (a : ℕ → ℤ) :
    ∀ (m off : ℕ) (r : ℤ),
      avx_accumulate_short_rem a m off r = avx_accumulate_short_unsat_rem a m off r := by
  intro m
  induction m with
  | zero => intro off r; rfl
  | succ m ih =>
      intro off r
      simp only [avx_accumulate_short_rem, avx_accumulate_short_unsat_rem, ih]

/-- C10: for every 16-bit input vector and every length, the saturating and
the nominally non-saturating accumulate variants return equal values — the
two source bodies are line-for-line identical (both saturate in the batched
portion and add exactly in the horizontal sum and the remainder). -/
theorem avx_accumulate_short_eq_unsat (a : ℕ → ℤ) (num_points : ℕ) :
    avx_accumulate_short a num_points = avx_accumulate_short_unsat a num_points := by
  simp only [avx_accumulate_short, avx_accumulate_short_unsat,
    accumulate_batch_eq_unsat_batch, accumulate_rem_eq_unsat_rem]

/-! ## Claim C2: multiply-accumulate kernels vs the scalar reference -/

set_option maxRecDepth 8000 in
/-- C2 counterexample: the short kernel does not equal the pure-scalar
reference (nor either saturating/wrapping scalar reading of it).  With
`A = B = c2big` (single product `40000`) and `N = 16` the batched portion
wraps the product to `-25536` while the exact scalar sum is `40000`; with
`A = B = c2hund` and `N = 17` the sixteen lane accumulators hold `10000`
each plus an exact remainder (total `170000`) while a scalar saturating
accumulator sticks at `32767`; with `N = 1` the remainder path is exact
(`40000`) while a scalar wrapped-product reference gives `-25536`. -/
theorem avx2_mul_and_acc_short_not_scalar_ref :
    avx2_mul_and_acc_short c2big c2big 16 = -25536 ∧
    dotScalarRef c2big c2big 16 = 40000 ∧
    avx2_mul_and_acc_short c2big c2big 16 ≠ dotScalarRef c2big c2big 16 ∧
    avx2_mul_and_acc_short c2hund c2hund 17 ≠ dotScalarSat16 c2hund c2hund 17 ∧
    avx2_mul_and_acc_short c2big c2big 1 ≠ dotScalarWrapProd c2big c2big 1 := by
  refine ⟨by decide, by decide, by decide, by decide, by decide⟩

/-- Helper: two's-complement wraparound is the identity inside the 16-bit range. -/
lemma wrap16_eq_self {x : ℤ} (h : |x| ≤ 32767) : wrap16 x = x := by
  rw [abs_le] at h
  unfold wrap16
  omega

/-- Helper: saturation is the identity inside the 16-bit range. -/
lemma sat16_eq_self {x : ℤ} (h : |x| ≤ 32767) : sat16 x = x := by
  rw [abs_le] at h
  unfold sat16
  rw [min_eq_right h.2, max_eq_right (by linarith [h.1])]

/-- Helper: lane-split range sum, width 8. -/
lemma sum_lanes8 {M : Type*} [AddCommMonoid M] (f : ℕ → M) :
    ∀ m : ℕ, ∑ i in Finset.range (8 * m), f i =
      ∑ k in Finset.range 8, ∑ j in Finset.range m, f (8 * j + k) := by
  intro m
  induction m with
  | zero => simp
  | succ m ih =>
      rw [Nat.mul_succ, Finset.sum_range_add, ih, ← Finset.sum_add_distrib]
      exact Finset.sum_congr rfl fun k _ => (Finset.sum_range_succ _ m).symm

/-- Helper: lane-split range sum, width 16. -/
lemma sum_lanes16 {M : Type*} [AddCommMonoid M] (f : ℕ → M) :
    ∀ m : ℕ, ∑ i in Finset.range (16 * m), f i =
      ∑ k in Finset.range 16, ∑ j in Finset.range m, f (16 * j + k) := by
  intro m
  induction m with
  | zero => simp
  | succ m ih =>
      rw [Nat.mul_succ, Finset.sum_range_add, ih, ← Finset.sum_add_distrib]
      exact Finset.sum_congr rfl fun k _ => (Finset.sum_range_succ _ m).symm

/-- Helper: the float batched loop accumulates, per lane, the exact products
of the elements that lane visits. -/
lemma fl32_batch_lane (a b : ℕ → ℚ) :
    ∀ (m off : ℕ) (acc : ℕ → ℚ) (k : ℕ),
      avx2_mul_and_acc_fl32_batch a b m off acc k =
        acc k + ∑ j in Finset.range m,
          a (off + 8 * j + k) * b (off + 8 * j + k) := by
  intro m
  induction m with
  | zero => intro off acc k; simp [avx2_mul_and_acc_fl32_batch]
  | succ m ih =>
      intro off acc k
      rw [avx2_mul_and_acc_fl32_batch, ih, Finset.sum_range_succ']
      have harg : ∀ j : ℕ, off + 8 + 8 * j + k = off + 8 * (j + 1) + k :=
        fun j => by ring
      simp only [harg, Nat.mul_zero, Nat.add_zero]
      ring

/-- Helper: the float remainder loop adds the exact products of the leftover
elements. -/
lemma fl32_rem_eq (a b : ℕ → ℚ) :
    ∀ (m off : ℕ) (r : ℚ),
      avx2_mul_and_acc_fl32_rem a b m off r =
        r + ∑ i in Finset.range m, a (off + i) * b (off + i) := by
  intro m
  induction m with
  | zero => intro off r; simp [avx2_mul_and_acc_fl32_rem]
  | succ m ih =>
      intro off r
      rw [avx2_mul_and_acc_fl32_rem, ih, Finset.sum_range_succ']
      have harg : ∀ i : ℕ, off + 1 + i = off + (i + 1) := fun i => by ring
      simp only [harg, Nat.add_zero]
      ring

/-- Helper: `hsum8` is the sum over the eight lanes. -/
lemma hsum8_eq (t : ℕ → ℚ) : hsum8 t = ∑ k in Finset.range 8, t k := by
  simp only [hsum8, Finset.sum_range_succ, Finset.sum_range_zero]
  ring

/-- Helper: the float kernel computes the exact dot product for every length. -/
lemma mulacc_fl32_exact (a b : ℕ → ℚ) (n : ℕ) :
    avx2_mul_and_acc_fl32 a b n = ∑ i in Finset.range n, a i * b i := by
  show avx2_mul_and_acc_fl32_rem a b (n - 8 * (n / 8)) (8 * (n / 8))
      (hsum8 (avx2_mul_and_acc_fl32_batch a b (n / 8) 0 (fun _ => 0))) = _
  have hbatch : hsum8 (avx2_mul_and_acc_fl32_batch a b (n / 8) 0 (fun _ => 0)) =
      ∑ i in Finset.range (8 * (n / 8)), a i * b i := by
    rw [hsum8_eq]
    have hlane : ∀ k : ℕ,
        avx2_mul_and_acc_fl32_batch a b (n / 8) 0 (fun _ => 0) k =
          ∑ j in Finset.range (n / 8), a (8 * j + k) * b (8 * j + k) := by
      intro k
      rw [fl32_batch_lane]
      simp [Nat.zero_add]
    simp only [hlane]
    exact (sum_lanes8 (fun i => a i * b i) (n / 8)).symm
  rw [fl32_rem_eq, hbatch]
  have hsplit := (Finset.sum_range_add (fun i => a i * b i) (8 * (n / 8)) (n - 8 * (n / 8))).symm
  rw [show 8 * (n / 8) + (n - 8 * (n / 8)) = n from by omega] at hsplit
  exact hsplit

/-- Helper: the short batched loop accumulates, per lane, the exact products
of the elements that lane visits, provided each lane's absolute-product
budget (together with the starting accumulator) stays within `32767`, so
that no product wraps and no lane add saturates. -/
lemma short_batch_lane (a b : ℕ → ℤ) :
    ∀ (m off : ℕ) (acc : ℕ → ℤ) (k : ℕ),
      |acc k| + (∑ j in Finset.range m,
          |a (off + 16 * j + k) * b (off + 16 * j + k)|) ≤ 32767 →
      avx2_mul_and_acc_short_batch a b m off acc k =
        acc k + ∑ j in Finset.range m,
          a (off + 16 * j + k) * b (off + 16 * j + k) := by
  intro m
  induction m with
  | zero => intro off acc k _; simp [avx2_mul_and_acc_short_batch]
  | succ m ih =>
      intro off acc k h
      have hidx : ∀ j : ℕ, off + 16 + 16 * j + k = off + 16 * (j + 1) + k :=
        fun j => by ring
      rw [Finset.sum_range_succ'] at h
      simp only [Nat.mul_zero, Nat.add_zero] at h
      have hsumnn : (0 : ℤ) ≤ ∑ j in Finset.range m,
          |a (off + 16 * (j + 1) + k) * b (off + 16 * (j + 1) + k)| :=
        Finset.sum_nonneg fun j _ => abs_nonneg _
      have haccnn := abs_nonneg (acc k)
      have h1 : |a (off + k) * b (off + k)| ≤ 32767 := by linarith
      have h2 : |acc k + a (off + k) * b (off + k)| ≤ 32767 :=
        le_trans (abs_add _ _) (by linarith)
      have hstep : sat16 (acc k + wrap16 (a (off + k) * b (off + k))) =
          acc k + a (off + k) * b (off + k) := by
        rw [wrap16_eq_self h1]
        exact sat16_eq_self h2
      rw [avx2_mul_and_acc_short_batch]
      have hpre : |sat16 (acc k + wrap16 (a (off + k) * b (off + k)))| +
          (∑ j in Finset.range m,
            |a (off + 16 + 16 * j + k) * b (off + 16 + 16 * j + k)|) ≤ 32767 := by
        rw [hstep]
        simp only [hidx]
        have := abs_add (acc k) (a (off + k) * b (off + k))
        linarith
      rw [ih (off + 16) (fun kk => sat16 (acc kk + wrap16 (a (off + kk) * b (off + kk)))) k hpre]
      simp only [hidx, hstep]
      rw [Finset.sum_range_succ']
      simp only [Nat.mul_zero, Nat.add_zero]
      ring

/-- Helper: the short remainder loop adds the exact products of the leftover
elements. -/
lemma short_rem_eq (a b : ℕ → ℤ) :
    ∀ (m off : ℕ) (r : ℤ),
      avx2_mul_and_acc_short_rem a b m off r =
        r + ∑ i in Finset.range m, a (off + i) * b (off + i) := by
  intro m
  induction m with
  | zero => intro off r; simp [avx2_mul_and_acc_short_rem]
  | succ m ih =>
      intro off r
      rw [avx2_mul_and_acc_short_rem, ih, Finset.sum_range_succ']
      have harg : ∀ i : ℕ, off + 1 + i = off + (i + 1) := fun i => by ring
      simp only [harg, Nat.add_zero]
      ring

/-- Helper: `hsum16` is the sum over the sixteen lanes. -/
lemma hsum16_eq (t : ℕ → ℤ) : hsum16 t = ∑ k in Finset.range 16, t k := by
  simp only [hsum16, Finset.sum_range_succ, Finset.sum_range_zero]
  ring

/-- Helper: the short kernel computes the exact dot product whenever the
total absolute-product mass fits the signed 16-bit range. -/
lemma mulacc_short_exact (a b : ℕ → ℤ) (n : ℕ)
    (H : ∑ i in Finset.range n, |a i * b i| ≤ 32767) :
    avx2_mul_and_acc_short a b n = ∑ i in Finset.range n, a i * b i := by
  show avx2_mul_and_acc_short_rem a b (n - 16 * (n / 16)) (16 * (n / 16))
      (hsum16 (avx2_mul_and_acc_short_batch a b (n / 16) 0 (fun _ => 0))) = _
  have hlanebound : ∀ k : ℕ, k < 16 →
      ∑ j in Finset.range (n / 16), |a (16 * j + k) * b (16 * j + k)| ≤ 32767 := by
    intro k hk
    calc ∑ j in Finset.range (n / 16), |a (16 * j + k) * b (16 * j + k)|
        ≤ ∑ kk in Finset.range 16, ∑ j in Finset.range (n / 16),
            |a (16 * j + kk) * b (16 * j + kk)| :=
          Finset.single_le_sum (f := fun kk => ∑ j in Finset.range (n / 16),
            |a (16 * j + kk) * b (16 * j + kk)|)
            (fun kk _ => Finset.sum_nonneg fun j _ => abs_nonneg _)
            (Finset.mem_range.mpr hk)
      _ = ∑ i in Finset.range (16 * (n / 16)), |a i * b i| :=
          (sum_lanes16 (fun i => |a i * b i|) (n / 16)).symm
      _ ≤ ∑ i in Finset.range n, |a i * b i| :=
          Finset.sum_le_sum_of_subset_of_nonneg
            (Finset.range_subset.mpr (by omega)) (fun i _ _ => abs_nonneg _)
      _ ≤ 32767 := H
  have hbatch : hsum16 (avx2_mul_and_acc_short_batch a b (n / 16) 0 (fun _ => 0)) =
      ∑ i in Finset.range (16 * (n / 16)), a i * b i := by
    rw [hsum16_eq]
    have hlane : ∀ k ∈ Finset.range 16,
        avx2_mul_and_acc_short_batch a b (n / 16) 0 (fun _ => 0) k =
          ∑ j in Finset.range (n / 16), a (16 * j + k) * b (16 * j + k) := by
      intro k hk
      have hb : |(fun _ : ℕ => (0 : ℤ)) k| + (∑ j in Finset.range (n / 16),
          |a (0 + 16 * j + k) * b (0 + 16 * j + k)|) ≤ 32767 := by
        simp only [abs_zero, zero_add, Nat.zero_add]
        exact hlanebound k (Finset.mem_range.mp hk)
      rw [short_batch_lane a b (n / 16) 0 (fun _ => 0) k hb]
      simp [Nat.zero_add]
    rw [Finset.sum_congr rfl hlane]
    exact (sum_lanes16 (fun i => a i * b i) (n / 16)).symm
  rw [short_rem_eq, hbatch]
  have hsplit := (Finset.sum_range_add (fun i => a i * b i) (16 * (n / 16)) (n - 16 * (n / 16))).symm
  rw [show 16 * (n / 16) + (n - 16 * (n / 16)) = n from by omega] at hsplit
  exact hsplit

/-- C2 amended: the float kernel returns the exact dot product
`sum(A[i]*B[i])` for every `N` (including `N = 0` and `N` not a multiple of
8), float arithmetic modelled as exact; the short kernel returns the exact
scalar dot product whenever the total absolute-product mass
`sum |A[i]*B[i]|` is at most `32767`, so that no 16-bit product wraps and no
lane accumulator saturates (including `N = 0` and `N` not a multiple of 16). -/
theorem mul_and_acc_kernels_amended :
    (∀ (a b : ℕ → ℚ) (n : ℕ),
      avx2_mul_and_acc_fl32 a b n = ∑ i in Finset.range n, a i * b i) ∧
    (∀ (a b : ℕ → ℤ) (n : ℕ), (∑ i in Finset.range n, |a i * b i|) ≤ 32767 →
      avx2_mul_and_acc_short a b n = ∑ i in Finset.range n, a i * b i) :=
  ⟨mulacc_fl32_exact, mulacc_short_exact⟩

/-- C2 witness: constant vectors of ones, length 20 (one full 16-lane batch
plus a remainder of 4): the short kernel returns 20. -/
theorem mul_and_acc_kernels_amended_witness :
    (∑ i in Finset.range 20, |(fun _ : ℕ => (1 : ℤ)) i * (fun _ : ℕ => (1 : ℤ)) i| ≤ 32767) ∧
    avx2_mul_and_acc_short (fun _ => 1) (fun _ => 1) 20 =
      ∑ i in Finset.range 20, (fun _ : ℕ => (1 : ℤ)) i * (fun _ : ℕ => (1 : ℤ)) i :=
  ⟨by decide, mul_and_acc_kernels_amended.2 (fun _ => 1) (fun _ => 1) 20 (by decide)⟩

/-! ## Claim C4: the rounding rule is the ceiling -/

/-- Helper: `cTrunc` of a nonnegative value is the floor. -/
lemma cTrunc_of_nonneg {x : ℚ} (h : 0 ≤ x) : cTrunc x = ⌊x⌋ := if_pos h

/-- Helper: `cTrunc` of a negative value is the ceiling. -/
lemma cTrunc_of_neg {x : ℚ} (h : ¬0 ≤ x) : cTrunc x = ⌈x⌉ := if_neg h

/-- Helper: the source's rounding rule computes the ceiling on every input
(for negative non-integers truncation toward zero already is the ceiling, so
the `+1` branch is never taken there). -/
lemma codeIdx_eq_ceil (x : ℚ) : codeIdx x = ⌈x⌉ := by
  unfold codeIdx
  by_cases h0 : 0 ≤ x
  · rw [cTrunc_of_nonneg h0, cTrunc_of_nonneg (by linarith : (0 : ℚ) ≤ x + 1)]
    by_cases hlt : (⌊x⌋ : ℚ) < x
    · rw [if_pos hlt, Int.floor_add_one]
      have h1 := Int.ceil_le_floor_add_one x
      have h2 : ⌊x⌋ < ⌈x⌉ := by exact_mod_cast hlt.trans_le (Int.le_ceil x)
      omega
    · rw [if_neg hlt]
      have hx : (⌊x⌋ : ℚ) = x := le_antisymm (Int.floor_le x) (not_lt.mp hlt)
      rw [← hx, Int.ceil_intCast, Int.floor_intCast]
  · rw [cTrunc_of_neg h0, if_neg (not_lt.mpr (Int.le_ceil x))]

/-- C4: for every sample index and nonnegative
`baseCode = i*codePhaseStep + remCodePhase`, the prompt index is
`⌈baseCode⌉` (which equals `baseCode` itself when `baseCode` is an integer,
since `⌈n⌉ = n`), and the same rule applied to `baseCode ∓ earlyLateSpc`
gives the early and late indices as the corresponding ceilings. -/
theorem code_replica_rounding (i : ℕ) (codePhaseStep remCodePhase earlyLateSpc : ℚ)
    (hnn : 0 ≤ (i : ℚ) * codePhaseStep + remCodePhase) :
    pCodeIdx i codePhaseStep remCodePhase = ⌈(i : ℚ) * codePhaseStep + remCodePhase⌉ ∧
    eCodeIdx i codePhaseStep remCodePhase earlyLateSpc =
      ⌈(i : ℚ) * codePhaseStep + remCodePhase - earlyLateSpc⌉ ∧
    lCodeIdx i codePhaseStep remCodePhase earlyLateSpc =
      ⌈(i : ℚ) * codePhaseStep + remCodePhase + earlyLateSpc⌉ :=
  ⟨codeIdx_eq_ceil _, codeIdx_eq_ceil _, codeIdx_eq_ceil _⟩

/-- C4 witness at `i = 1`, `codePhaseStep = 1/2`, `remCodePhase = 1/4`,
`earlyLateSpc = 1/2` (so `baseCode = 3/4`): indices 1, 1 and 2. -/
theorem code_replica_rounding_witness :
    (0 ≤ (1 : ℚ) * (1 / 2) + 1 / 4) ∧
    (pCodeIdx 1 (1 / 2) (1 / 4) = ⌈(1 : ℚ) * (1 / 2) + 1 / 4⌉ ∧
     eCodeIdx 1 (1 / 2) (1 / 4) (1 / 2) = ⌈(1 : ℚ) * (1 / 2) + 1 / 4 - 1 / 2⌉ ∧
     lCodeIdx 1 (1 / 2) (1 / 4) (1 / 2) = ⌈(1 : ℚ) * (1 / 2) + 1 / 4 + 1 / 2⌉) ∧
    pCodeIdx 1 (1 / 2) (1 / 4) = 1 ∧
    eCodeIdx 1 (1 / 2) (1 / 4) (1 / 2) = 1 ∧
    lCodeIdx 1 (1 / 2) (1 / 4) (1 / 2) = 2 :=
  ⟨by norm_num, code_replica_rounding 1 (1 / 2) (1 / 4) (1 / 2) (by norm_num),
   by simp only [pCodeIdx, codeIdx_eq_ceil]; norm_num [Int.ceil_eq_iff],
   by simp only [eCodeIdx, codeIdx_eq_ceil]; norm_num [Int.ceil_eq_iff],
   by simp only [lCodeIdx, codeIdx_eq_ceil]; norm_num [Int.ceil_eq_iff]⟩

/-! ## Claim C5: completed VSM window computes the spec formula and resets -/

/-- C5: whenever an epoch completes a window of `vsmInterval` epochs
(`st.vsmCount + 1 = vsmInterval`), the tracking loop records the pair
`(loopcount + 1, CNo)` with `CNo` given exactly by the specification formula
(including both absolute-value guards) applied to the updated running sums,
and resets the counter, the power sum and the power sum-of-squares to zero.
Quantifying over the abstract `sqrtF`/`log10F` shows the agreement is
structural, independent of the libm implementations. -/
theorem vsm_window_complete (sqrtF log10F : ℚ → ℚ) (vsmInterval : ℕ) (accInt : ℚ)
    (loopcount : ℕ) (I_P Q_P : ℚ) (st : VsmState)
    (h : st.vsmCount + 1 = vsmInterval) :
    vsmEpoch sqrtF log10F vsmInterval accInt loopcount I_P Q_P st =
      (⟨0, 0, 0⟩,
       some ((loopcount : ℚ) + 1,
         cnoSpecFormula sqrtF log10F vsmInterval accInt
           (st.pwrSum + (I_P * I_P + Q_P * Q_P))
           (st.pwrSqrSum + (I_P * I_P + Q_P * Q_P) * (I_P * I_P + Q_P * Q_P)))) := by
  simp only [vsmEpoch, cnoSpecFormula]
  rw [if_pos h]

/-- C5 witness: a window of length 1 with `I_P = 1`, `Q_P = 0`, identity
stand-ins for `sqrt` and `log10`. -/
theorem vsm_window_complete_witness :
    ((⟨0, 0, 0⟩ : VsmState).vsmCount + 1 = 1) ∧
    vsmEpoch (fun q => q) (fun q => q) 1 1 0 1 0 ⟨0, 0, 0⟩ =
      (⟨0, 0, 0⟩,
       some ((0 : ℚ) + 1,
         cnoSpecFormula (fun q => q) (fun q => q) 1 1 (0 + (1 * 1 + 0 * 0))
           (0 + (1 * 1 + 0 * 0) * (1 * 1 + 0 * 0)))) :=
  ⟨rfl, vsm_window_complete (fun q => q) (fun q => q) 1 1 0 1 0 ⟨0, 0, 0⟩ rfl⟩

/-! ## Claim C6: short read is not fatal, a record is still emitted -/

/-- C6 (code_bug evaluation): with 2 configured epochs, 4 items requested per
epoch and only 6 items in the stream, the second epoch's `fread` delivers
only 2 items, yet the loop still emits a record for it: the run produces one
record per configured epoch (no abort path exists between the read and the
store). -/
theorem trackEpochs_short_read_still_emits :
    trackEpochs 4 2 6 = [4, 2] ∧
    (trackEpochs 4 2 6).length = 2 ∧
    freadCount 2 4 < 4 := by
  refine ⟨by decide, by decide, by decide⟩

/-! ## Claim C8: degeneracy outputs are not always non-finite -/

/-- Helper: finite division by a nonzero finite value is finite. -/
lemma rext_div_fin_fin (x y : ℚ) (hy : y ≠ 0) :
    RExt.div (RExt.fin x) (RExt.fin y) = RExt.fin (x / y) := by
  simp only [RExt.div]
  rw [if_pos hy]

/-- Helper: a positive finite value over zero is `+∞`. -/
lemma rext_div_pos_zero (x : ℚ) (hx : 0 < x) :
    RExt.div (RExt.fin x) (RExt.fin 0) = RExt.pinf := by
  simp only [RExt.div]
  rw [if_neg (by norm_num), if_pos hx]

/-- Helper: a negative finite value over zero is `-∞`. -/
lemma rext_div_neg_zero (x : ℚ) (hx : x < 0) :
    RExt.div (RExt.fin x) (RExt.fin 0) = RExt.ninf := by
  simp only [RExt.div]
  rw [if_neg (by norm_num), if_neg (not_lt.mpr hx.le), if_pos hx]

/-- Helper: `0/0` is NaN. -/
lemma rext_div_zero_zero : RExt.div (RExt.fin 0) (RExt.fin 0) = RExt.nan := by
  simp only [RExt.div]
  norm_num

/-- Helper: `atan(+∞)` is the finite value `atanInf`. -/
lemma rext_atanE_pinf (atanF : ℚ → ℚ) (atanInf : ℚ) :
    RExt.atanE atanF atanInf RExt.pinf = RExt.fin atanInf := rfl

/-- Helper: `atan(-∞)` is the finite value `-atanInf`. -/
lemma rext_atanE_ninf (atanF : ℚ → ℚ) (atanInf : ℚ) :
    RExt.atanE atanF atanInf RExt.ninf = RExt.fin (-atanInf) := rfl

/-- Helper: NaN absorbs on the right of multiplication. -/
lemma rext_mul_nan (x : RExt) : x * RExt.nan = RExt.nan := by cases x <;> rfl

/-- Helper: NaN absorbs on the left of multiplication. -/
lemma rext_nan_mul (x : RExt) : RExt.nan * x = RExt.nan := by cases x <;> rfl

/-- Helper: NaN absorbs on the right of addition. -/
lemma rext_add_nan (x : RExt) : x + RExt.nan = RExt.nan := by cases x <;> rfl

/-- Helper: NaN absorbs on the left of subtraction. -/
lemma rext_nan_sub (x : RExt) : RExt.nan - x = RExt.nan := by cases x <;> rfl

/-- C8 counterexample: at the degenerate epoch `I_P = 0`, `Q_P = 1`, the
carrier discriminator is FINITE: `Q_P/I_P` is `+∞` and, per C99 Annex F,
`atan(+∞) = π/2` is finite, so `carrError = atan(+∞)/(2π) ≈ 0.25` — not NaN
and not an infinity.  (Instantiated with an identity stand-in for the finite
part of `atan` and the rational `157/100` for `atan(+∞)`; the finiteness of
the result does not depend on either choice.) -/
theorem carrError_finite_at_IP_zero :
    (carrErrorCalc (fun w => w) (157 / 100) (RExt.fin 0) (RExt.fin 1)).isFinite = true ∧
    carrErrorCalc (fun w => w) (157 / 100) (RExt.fin 0) (RExt.fin 1) =
      RExt.fin ((157 / 100) / (2 * piC)) := by
  have h2 : carrErrorCalc (fun w => w) (157 / 100) (RExt.fin 0) (RExt.fin 1) =
      RExt.fin ((157 / 100) / (2 * piC)) := by
    unfold carrErrorCalc
    rw [rext_div_pos_zero 1 (by norm_num), rext_atanE_pinf]
    exact rext_div_fin_fin _ _ (by norm_num [piC])
  exact ⟨by rw [h2]; rfl, h2⟩

/-- C8 amended: the run is never aborted on a degenerate epoch; when
`I_P = 0` the carrier discriminator is the finite value `±atan(∞)/(2π)` if
`Q_P ≠ 0`, and NaN only if `Q_P = 0` as well; when all early/late
correlations vanish (`|E| + |L| = 0`) the code discriminator is NaN; and a
NaN discriminator propagates through the carrier loop filter into its
stored state. -/
theorem discriminator_degeneracy_amended (atanF sqrtF : ℚ → ℚ) (atanInf q : ℚ)
    (oldCarrNco tau1carr tau2carr PDIcarr oldCarrError : RExt) :
    (0 < q → carrErrorCalc atanF atanInf (RExt.fin 0) (RExt.fin q) =
        RExt.fin (atanInf / (2 * piC))) ∧
    (q < 0 → carrErrorCalc atanF atanInf (RExt.fin 0) (RExt.fin q) =
        RExt.fin (-atanInf / (2 * piC))) ∧
    (carrErrorCalc atanF atanInf (RExt.fin 0) (RExt.fin 0) = RExt.nan) ∧
    (sqrtF 0 = 0 →
      codeErrorCalc sqrtF (RExt.fin 0) (RExt.fin 0) (RExt.fin 0) (RExt.fin 0) = RExt.nan) ∧
    (carrNcoCalc oldCarrNco tau1carr tau2carr PDIcarr RExt.nan oldCarrError = RExt.nan) := by
  have hpi : (2 * piC : ℚ) ≠ 0 := by norm_num [piC]
  refine ⟨?_, ?_, ?_, ?_, ?_⟩
  · intro hq
    unfold carrErrorCalc
    rw [rext_div_pos_zero q hq, rext_atanE_pinf]
    exact rext_div_fin_fin _ _ hpi
  · intro hq
    unfold carrErrorCalc
    rw [rext_div_neg_zero q hq, rext_atanE_ninf]
    exact rext_div_fin_fin _ _ hpi
  · unfold carrErrorCalc
    rw [rext_div_zero_zero]
    rfl
  · intro hs
    have he : RExt.sqrtE sqrtF (RExt.fin 0 * RExt.fin 0 + RExt.fin 0 * RExt.fin 0) =
        RExt.fin 0 := by
      show RExt.sqrtE sqrtF (RExt.fin (0 * 0 + 0 * 0)) = RExt.fin 0
      rw [show (0 * 0 + 0 * 0 : ℚ) = 0 from by norm_num]
      show (if (0 : ℚ) < 0 then RExt.nan else RExt.fin (sqrtF 0)) = RExt.fin 0
      rw [if_neg (by norm_num), hs]
    simp only [codeErrorCalc, he]
    show RExt.div (RExt.fin (0 + -0)) (RExt.fin (0 + 0)) = RExt.nan
    rw [show (0 + -0 : ℚ) = 0 from by norm_num, show (0 + 0 : ℚ) = 0 from by norm_num]
    exact rext_div_zero_zero
  · unfold carrNcoCalc
    rw [rext_nan_sub, rext_mul_nan, rext_nan_mul, rext_add_nan]

/-- C8 witness for the amended statement at concrete inputs. -/
theorem discriminator_degeneracy_amended_witness :
    (0 < (1 : ℚ)) ∧
    carrErrorCalc (fun w => w) (157 / 100) (RExt.fin 0) (RExt.fin 1) =
      RExt.fin ((157 / 100) / (2 * piC)) ∧
    carrErrorCalc (fun w => w) (157 / 100) (RExt.fin 0) (RExt.fin 0) = RExt.nan ∧
    codeErrorCalc (fun w => w) (RExt.fin 0) (RExt.fin 0) (RExt.fin 0) (RExt.fin 0) =
      RExt.nan ∧
    carrNcoCalc (RExt.fin 0) (RExt.fin 1) (RExt.fin 1) (RExt.fin 1) RExt.nan (RExt.fin 0) =
      RExt.nan := by
  have h := discriminator_degeneracy_amended (fun w => w) (fun w => w) (157 / 100) 1
    (RExt.fin 0) (RExt.fin 1) (RExt.fin 1) (RExt.fin 1) (RExt.fin 0)
  exact ⟨by norm_num, h.1 (by norm_num), h.2.2.1, h.2.2.2.1 rfl, h.2.2.2.2⟩
